import Mathlib

/-!
Shallow embedding of the eit-db condition model and query-builder layer.

The condition model (SimpleCondition, CompositeCondition, NotCondition, the
factory functions Eq .. Not) and the capability declarations are translated
directly from the Go sources. Go interface values (interface\x7b\x7d) that may
hold scalars or slices are embedded as the inductive type GoValue; the Go
triple (string, []interface\x7b\x7d, error) returned by Translate is embedded
as the structure TranslateResult, where a nil error is err = none.
-/

namespace db

/-- Embedding of Go interface values as they occur in condition values:
scalars, slices of values, or nil. -/
inductive GoValue where
  | str (s : String)
  | int (n : Int)
  | bool (b : Bool)
  | list (vs : List GoValue)
  | null

/-- The closed set of built-in Condition variants: SimpleCondition
(field, operator, value), CompositeCondition (operator, conditions) and
NotCondition (one inner condition). -/
inductive Condition where
  | simple (field : String) (operator : String) (value : GoValue)
  | composite (operator : String) (conditions : List Condition)
  | not (inner : Condition)

/-- The Go result triple (sql string, args []interface\x7b\x7d, error) of a
Translate call; a nil Go error is err = none. -/
structure TranslateResult where
  sql : String
  args : List GoValue
  err : Option String

/-- The ConditionTranslator interface: TranslateCondition and
TranslateComposite, each returning the Go result triple. -/
structure ConditionTranslator where
  TranslateCondition : Condition → TranslateResult
  TranslateComposite : String → List Condition → TranslateResult

/-- SimpleCondition.Type, CompositeCondition.Type and NotCondition.Type:
each variant reports its structural tag, consulting nothing else. -/
def Condition.TypeTag : Condition → String
  | .simple _ _ _ => "simple"
  | .composite _ _ => "composite"
  | .not _ => "not"

/-- The three Translate methods: SimpleCondition.Translate calls
translator.TranslateCondition(c); CompositeCondition.Translate calls
translator.TranslateComposite(c.Operator, c.Conditions);
NotCondition.Translate translates the inner condition, propagates an inner
error as ("", nil, err), and otherwise wraps the inner SQL in NOT (...)
keeping the inner arguments. -/
def Condition.Translate : Condition → ConditionTranslator → TranslateResult
  | .simple f op v, t => t.TranslateCondition (.simple f op v)
  | .composite op cs, t => t.TranslateComposite op cs
  | .not c, t =>
      match c.Translate t with
      | ⟨_, _, some e⟩ => ⟨"", [], some e⟩
      | ⟨s, a, none⟩ => ⟨"NOT (" ++ s ++ ")", a, none⟩

/-- Factory Eq: field = value. -/
def Eq (field : String) (value : GoValue) : Condition := .simple field "eq" value

/-- Factory Ne: field != value. -/
def Ne (field : String) (value : GoValue) : Condition := .simple field "ne" value

/-- Factory Gt. -/
def Gt (field : String) (value : GoValue) : Condition := .simple field "gt" value

/-- Factory Lt. -/
def Lt (field : String) (value : GoValue) : Condition := .simple field "lt" value

/-- Factory Gte. -/
def Gte (field : String) (value : GoValue) : Condition := .simple field "gte" value

/-- Factory Lte. -/
def Lte (field : String) (value : GoValue) : Condition := .simple field "lte" value

/-- Factory In: the variadic values slice is stored as the condition value. -/
def In (field : String) (values : List GoValue) : Condition :=
  .simple field "in" (.list values)

/-- Factory Between: stores the two-element slice (min, max). -/
def Between (field : String) (lo hi : GoValue) : Condition :=
  .simple field "between" (.list [lo, hi])

/-- Factory Like: stores the pattern string as the condition value. -/
def Like (field : String) (pattern : String) : Condition :=
  .simple field "like" (.str pattern)

/-- Factory And: the variadic conditions slice becomes the child list. -/
def And (conditions : List Condition) : Condition := .composite "and" conditions

/-- Factory Or: the variadic conditions slice becomes the child list. -/
def Or (conditions : List Condition) : Condition := .composite "or" conditions

/-- Factory Not: wraps one inner condition. -/
def Not (condition : Condition) : Condition := .not condition

/-- QueryBuilderCapabilities: the flat record of capability booleans, the
native-query language tag and the description, from part_003. -/
structure QueryBuilderCapabilities where
  SupportsEq : Bool
  SupportsNe : Bool
  SupportsGt : Bool
  SupportsLt : Bool
  SupportsGte : Bool
  SupportsLte : Bool
  SupportsIn : Bool
  SupportsBetween : Bool
  SupportsLike : Bool
  SupportsAnd : Bool
  SupportsOr : Bool
  SupportsNot : Bool
  SupportsSelect : Bool
  SupportsOrderBy : Bool
  SupportsLimit : Bool
  SupportsOffset : Bool
  SupportsJoin : Bool
  SupportsSubquery : Bool
  SupportsQueryPlan : Bool
  SupportsIndex : Bool
  SupportsNativeQuery : Bool
  NativeQueryLang : String
  Description : String

/-- DefaultQueryBuilderCapabilities: the Go composite literal sets every
listed flag; NativeQueryLang is absent from the literal and therefore takes
the Go zero value, the empty string. -/
def DefaultQueryBuilderCapabilities : QueryBuilderCapabilities :=
  { SupportsEq := true
    SupportsNe := true
    SupportsGt := true
    SupportsLt := true
    SupportsGte := true
    SupportsLte := true
    SupportsIn := true
    SupportsBetween := true
    SupportsLike := true
    SupportsAnd := true
    SupportsOr := true
    SupportsNot := true
    SupportsSelect := true
    SupportsOrderBy := true
    SupportsLimit := true
    SupportsOffset := true
    SupportsJoin := true
    SupportsSubquery := true
    SupportsQueryPlan := true
    SupportsIndex := true
    SupportsNativeQuery := false
    NativeQueryLang := ""
    Description := "Default SQL Query Builder" }

/-- Projection of the value stored in a simple condition, none for the
other variants. -/
def conditionValue : Condition → Option GoValue
  | .simple _ _ v => some v
  | _ => none

/-! The SQL dialect, translator and Build layer. The repository sources
for this layer (the SQLDialect implementations, DefaultSQLTranslator and
SQLQueryConstructor.Build) are not present; only their tests and
documentation are. The definitions below are therefore modelled from the
spec. Rendered SQL is embedded as a list of fragments, each either literal
text or a parameter placeholder carrying its 1-based global argument
index; the SQL string of the spec is the concatenation of the rendered
fragments under a dialect. -/

/-- Modelled from the spec: the SQLDialect strategy object (its three Go
implementations are missing from the sources). A dialect carries its
name, identifier quoting and the 1-based placeholder generator. -/
structure SQLDialect where
  name : String
  QuoteIdentifier : String → String
  GetPlaceholder : Nat → String

/-- Wraps a raw identifier in the quote string q, escaping embedded
occurrences of q by doubling them. -/
def quoteWrap (q : String) (s : String) : String :=
  q ++ String.join (s.data.map
    (fun c => if String.singleton c = q then q ++ q else String.singleton c)) ++ q

/-- Modelled from the spec: the MySQL dialect, backtick identifier
quoting and positional placeholders. -/
def NewMySQLDialect : SQLDialect :=
  ⟨"mysql", quoteWrap "`", fun _ => "?"⟩

/-- Modelled from the spec: the PostgreSQL dialect, double-quote
identifier quoting and numbered placeholders rendering the exact index. -/
def NewPostgreSQLDialect : SQLDialect :=
  ⟨"postgres", quoteWrap "\"", fun i => "$" ++ toString i⟩

/-- Modelled from the spec: the SQLite dialect, backtick identifier
quoting and positional placeholders. -/
def NewSQLiteDialect : SQLDialect :=
  ⟨"sqlite", quoteWrap "`", fun _ => "?"⟩

/-- A fragment of rendered SQL: literal text, or a parameter placeholder
carrying its 1-based global argument index. -/
inductive SqlFrag where
  | text (s : String)
  | ph (index : Nat)

/-- Rendering one fragment under a dialect: text verbatim, a placeholder
through GetPlaceholder. -/
def renderFrag (d : SQLDialect) : SqlFrag → String
  | .text s => s
  | .ph i => d.GetPlaceholder i

/-- The SQL string of a fragment list under a dialect. -/
def renderSQL (d : SQLDialect) (fr : List SqlFrag) : String :=
  String.join (fr.map (renderFrag d))

/-- Modelled from the spec: the rendered comparison symbol per simple
operator, none for operators with non-symbol rendering. -/
def opSymbol (op : String) : Option String :=
  if op = "eq" then some "="
  else if op = "ne" then some "!="
  else if op = "gt" then some ">"
  else if op = "lt" then some "<"
  else if op = "gte" then some ">="
  else if op = "lte" then some "<="
  else none

/-- n placeholders numbered start, start+1, ... separated by ", ". -/
def phSeq : Nat → Nat → List SqlFrag
  | _, 0 => []
  | start, 1 => [SqlFrag.ph start]
  | start, n + 2 => SqlFrag.ph start :: SqlFrag.text ", " :: phSeq (start + 1) (n + 1)

/-- Modelled from the spec: translation of one simple condition. The
field is quoted via the dialect; eq/ne/gt/lt/gte/lte and like emit one
placeholder and one argument; in emits one placeholder per element in
input order; between emits exactly two placeholders joined by AND with
arguments in (min, max) order; a malformed value shape or an unknown
operator is a reported error with no partial SQL. Each placeholder
consumes and increments the argument counter. -/
def translateSimple (d : SQLDialect) (field op : String) (v : GoValue) (idx : Nat) :
    Except String (List SqlFrag × List GoValue × Nat) :=
  match opSymbol op with
  | some sym =>
      .ok ([.text (d.QuoteIdentifier field ++ " " ++ sym ++ " "), .ph idx], [v], idx + 1)
  | none =>
    if op = "like" then
      .ok ([.text (d.QuoteIdentifier field ++ " LIKE "), .ph idx], [v], idx + 1)
    else if op = "in" then
      match v with
      | .list vs =>
          if vs.isEmpty then .error "in requires at least one value"
          else .ok ([SqlFrag.text (d.QuoteIdentifier field ++ " IN (")]
              ++ phSeq idx vs.length ++ [SqlFrag.text ")"], vs, idx + vs.length)
      | _ => .error "in requires a list of values"
    else if op = "between" then
      match v with
      | .list [lo, hi] =>
          .ok ([.text (d.QuoteIdentifier field ++ " BETWEEN "), .ph idx,
                .text " AND ", .ph (idx + 1)], [lo, hi], idx + 2)
      | _ => .error "between requires exactly two values"
    else .error ("unknown operator: " ++ op)

mutual

/-- Modelled from the spec: recursive translation of a condition tree,
threading the argument counter. A composite joins its recursively
translated children with the AND/OR keyword inside one pair of
parentheses and concatenates their argument lists in traversal order; an
empty child list or an unknown composite operator is a reported error;
not wraps the inner translation in NOT (...) with unchanged arguments. -/
def translateCond (d : SQLDialect) : Condition → Nat →
    Except String (List SqlFrag × List GoValue × Nat)
  | .simple f op v, idx => translateSimple d f op v idx
  | .not c, idx =>
      match translateCond d c idx with
      | .error e => .error e
      | .ok (fr, as, i) =>
          .ok (SqlFrag.text "NOT (" :: (fr ++ [SqlFrag.text ")"]), as, i)
  | .composite op cs, idx =>
      match (if op = "and" then some " AND "
             else if op = "or" then some " OR " else none) with
      | none => .error ("unknown composite operator: " ++ op)
      | some kw =>
        match cs with
        | [] => .error "empty composite condition list"
        | c :: rest =>
          match translateCond d c idx with
          | .error e => .error e
          | .ok (fr, as, i) =>
            match translateCondList d kw rest i with
            | .error e => .error e
            | .ok (frs, as2, i2) =>
                .ok (SqlFrag.text "(" :: (fr ++ frs ++ [SqlFrag.text ")"]),
                     as ++ as2, i2)

/-- Modelled from the spec: translation of the remaining children of a
composite, each preceded by the joining keyword, threading the counter. -/
def translateCondList (d : SQLDialect) (kw : String) : List Condition → Nat →
    Except String (List SqlFrag × List GoValue × Nat)
  | [], idx => .ok ([], [], idx)
  | c :: rest, idx =>
      match translateCond d c idx with
      | .error e => .error e
      | .ok (fr, as, i) =>
        match translateCondList d kw rest i with
        | .error e => .error e
        | .ok (frs, as2, i2) =>
            .ok (SqlFrag.text kw :: (fr ++ frs), as ++ as2, i2)

end

/-- Modelled from the spec: all top-level Where entries are joined with
" AND " without an extra wrapping parenthesis, the counter threaded left
to right across the whole WHERE clause. -/
def buildWhere (d : SQLDialect) : List Condition → Nat →
    Except String (List SqlFrag × List GoValue × Nat)
  | [], idx => .ok ([], [], idx)
  | c :: rest, idx =>
      match translateCond d c idx with
      | .error e => .error e
      | .ok (fr, as, i) =>
        match translateCondList d " AND " rest i with
        | .error e => .error e
        | .ok (frs, as2, i2) => .ok (fr ++ frs, as ++ as2, i2)

/-- Modelled from the spec: the LIMIT/OFFSET clause, empty when both are
absent, rendering limit-only, offset-only and both-present cases. -/
def GenerateLimitOffset : Option Int → Option Int → String
  | none, none => ""
  | some l, none => " LIMIT " ++ toString l
  | none, some o => " OFFSET " ++ toString o
  | some l, some o => " LIMIT " ++ toString l ++ " OFFSET " ++ toString o

/-- The SQLQueryConstructor builder state: bound table name and dialect,
selected columns (empty means star), accumulated top-level conditions,
order-by terms, optional limit and offset. -/
structure SQLQueryConstructor where
  schemaTable : String
  dialect : SQLDialect
  selectedCols : List String
  conditions : List Condition
  orderBys : List (String × String)
  limitVal : Option Int
  offsetVal : Option Int

/-- Modelled from the spec: Build assembles
SELECT cols-or-star FROM table [WHERE ...] [ORDER BY ...] [limit/offset]
as a fragment list plus the ordered argument list; the argument counter
starts at 1 and is reset per call; a negative limit or offset is a
build-time error; a translation error aborts with no SQL. -/
def Build (qc : SQLQueryConstructor) : Except String (List SqlFrag × List GoValue) :=
  if qc.limitVal.getD 0 < 0 then .error "negative limit"
  else if qc.offsetVal.getD 0 < 0 then .error "negative offset"
  else
    match buildWhere qc.dialect qc.conditions 1 with
    | .error e => .error e
    | .ok (wfr, args, _) =>
      let d := qc.dialect
      let cols := if qc.selectedCols.isEmpty then "*"
        else String.intercalate ", " (qc.selectedCols.map d.QuoteIdentifier)
      let head := "SELECT " ++ cols ++ " FROM " ++ d.QuoteIdentifier qc.schemaTable
      let tail :=
        (if qc.orderBys.isEmpty then ""
         else " ORDER BY " ++ String.intercalate ", "
            (qc.orderBys.map (fun ob => d.QuoteIdentifier ob.1 ++ " " ++ ob.2)))
        ++ GenerateLimitOffset qc.limitVal qc.offsetVal
      let whereFr : List SqlFrag :=
        if qc.conditions.isEmpty then [] else SqlFrag.text " WHERE " :: wfr
      .ok (SqlFrag.text head :: (whereFr ++ [SqlFrag.text tail]), args)

/-- The placeholder indices of a fragment list, in order of appearance. -/
def phIndices (fr : List SqlFrag) : List Nat :=
  fr.filterMap (fun f => match f with | .ph i => some i | .text _ => none)

/-- The rendered placeholder tokens of a fragment list under a dialect,
in order of appearance. -/
def phStrings (d : SQLDialect) (fr : List SqlFrag) : List String :=
  fr.filterMap (fun f => match f with
    | .ph i => some (d.GetPlaceholder i) | .text _ => none)

/-- A concrete query used to witness the Build placeholder property: the
PostgreSQL dialect with two WHERE conditions carrying one argument each. -/
def buildWitnessQC : SQLQueryConstructor :=
  ⟨"users", NewPostgreSQLDialect, [],
    [Eq "name" (GoValue.str "John"), Gt "age" (GoValue.int 18)], [], none, none⟩

/-- The fragment list Build produces for buildWitnessQC. -/
def buildWitnessFrags : List SqlFrag :=
  [.text "SELECT * FROM \"users\"", .text " WHERE ",
   .text "\"name\" = ", .ph 1, .text " AND ", .text "\"age\" > ", .ph 2,
   .text ""]

/-- The argument list Build produces for buildWitnessQC. -/
def buildWitnessArgs : List GoValue :=
  [GoValue.str "John", GoValue.int 18]

end db

/-! Theorems about the condition model. -/

/-- C1: for every condition c and translator t, if translating c via t
succeeds with SQL fragment s and argument list a, then translating Not(c)
via t succeeds and returns exactly "NOT (" ++ s ++ ")" with the identical
argument list a. -/
theorem not_translate_wraps_success (c : db.Condition) (t : db.ConditionTranslator)
    (s : String) (a : List db.GoValue)
    (h : c.Translate t = ⟨s, a, none⟩) :
    (db.Not c).Translate t = ⟨"NOT (" ++ s ++ ")", a, none⟩ := by
  show (db.Condition.not c).Translate t = _
  unfold db.Condition.Translate
  rw [h]

/-- Witness for C1 at a concrete condition and a concrete translator. -/
theorem not_translate_wraps_success_witness :
    (db.Not (db.Eq "name" (db.GoValue.str "John"))).Translate
      ⟨fun _ => ⟨"x = ?", [db.GoValue.str "John"], none⟩, fun _ _ => ⟨"", [], none⟩⟩
      = ⟨"NOT (x = ?)", [db.GoValue.str "John"], none⟩ :=
  not_translate_wraps_success (db.Eq "name" (db.GoValue.str "John"))
    ⟨fun _ => ⟨"x = ?", [db.GoValue.str "John"], none⟩, fun _ _ => ⟨"", [], none⟩⟩
    "x = ?" [db.GoValue.str "John"] rfl

/-- C2: a simple condition translates to exactly t.TranslateCondition(c),
and a composite condition with operator op and children cs translates to
exactly t.TranslateComposite(op, cs), both passed through unchanged. -/
theorem translate_dispatch (t : db.ConditionTranslator) :
    (∀ f op v, (db.Condition.simple f op v).Translate t
        = t.TranslateCondition (db.Condition.simple f op v)) ∧
    (∀ op cs, (db.Condition.composite op cs).Translate t
        = t.TranslateComposite op cs) :=
  ⟨fun _ _ _ => rfl, fun _ _ => rfl⟩

/-- C3: every factory function is a total pure constructor: for every
input it returns the corresponding Condition value, recording the inputs
verbatim with no validation, rejection or failure path. -/
theorem factories_total_pure :
    (∀ f v, db.Eq f v = db.Condition.simple f "eq" v) ∧
    (∀ f v, db.Ne f v = db.Condition.simple f "ne" v) ∧
    (∀ f v, db.Gt f v = db.Condition.simple f "gt" v) ∧
    (∀ f v, db.Lt f v = db.Condition.simple f "lt" v) ∧
    (∀ f v, db.Gte f v = db.Condition.simple f "gte" v) ∧
    (∀ f v, db.Lte f v = db.Condition.simple f "lte" v) ∧
    (∀ f vs, db.In f vs = db.Condition.simple f "in" (db.GoValue.list vs)) ∧
    (∀ f lo hi, db.Between f lo hi
        = db.Condition.simple f "between" (db.GoValue.list [lo, hi])) ∧
    (∀ f p, db.Like f p = db.Condition.simple f "like" (db.GoValue.str p)) ∧
    (∀ cs, db.And cs = db.Condition.composite "and" cs) ∧
    (∀ cs, db.Or cs = db.Condition.composite "or" cs) ∧
    (∀ c, db.Not c = db.Condition.not c) :=
  ⟨fun _ _ => rfl, fun _ _ => rfl, fun _ _ => rfl, fun _ _ => rfl,
   fun _ _ => rfl, fun _ _ => rfl, fun _ _ => rfl, fun _ _ _ => rfl,
   fun _ _ => rfl, fun _ => rfl, fun _ => rfl, fun _ => rfl⟩

/-- C4: Between(f, lo, hi) is a simple condition with operator "between"
whose value is exactly the ordered two-element list [lo, hi], lo first,
for every pair of values regardless of how they compare. -/
theorem between_value_pair (f : String) (lo hi : db.GoValue) :
    db.Between f lo hi
      = db.Condition.simple f "between" (db.GoValue.list [lo, hi]) := rfl

/-- C5 counterexample: it is not the case that every In-construction
carries a non-empty value list; In with zero variadic values carries the
empty list. -/
theorem in_nonempty_counterexample :
    ¬ ∀ (f : String) (vs : List db.GoValue), ∃ v tl,
        db.In f vs = db.Condition.simple f "in" (db.GoValue.list (v :: tl)) := by
  intro h
  obtain ⟨v, tl, heq⟩ := h "age" []
  have : db.GoValue.list ([] : List db.GoValue) = db.GoValue.list (v :: tl) := by
    injection heq
  simp at this

/-- C5 amended: In(f, vs) carries exactly the ordered list vs as supplied;
the list is non-empty precisely when at least one value is supplied, and
In with zero values constructs a condition carrying the empty list. -/
theorem in_value_list_exact (f : String) (vs : List db.GoValue) :
    db.In f vs = db.Condition.simple f "in" (db.GoValue.list vs) ∧
      (db.conditionValue (db.In f vs) = some (db.GoValue.list []) ↔ vs = []) := by
  refine ⟨rfl, ?_⟩
  constructor
  · intro h
    simp only [db.In, db.conditionValue, Option.some.injEq] at h
    injection h
  · intro h
    subst h
    rfl

/-- C6 counterexample: it is not the case that every And- or
Or-construction has at least one child; And with zero variadic conditions
yields a composite with an empty child list. -/
theorem composite_nonempty_counterexample :
    ¬ ∀ (cs : List db.Condition), ∃ c tl,
        db.And cs = db.Condition.composite "and" (c :: tl) := by
  intro h
  obtain ⟨c, tl, heq⟩ := h []
  have : ([] : List db.Condition) = c :: tl := by injection heq
  simp at this

/-- C6 amended: And(cs) and Or(cs) construct composites whose child
sequence is exactly cs in the order supplied; the sequence is non-empty
precisely when at least one condition is supplied, and the zero-argument
calls construct composites with empty child lists. -/
theorem composite_children_exact (cs : List db.Condition) :
    db.And cs = db.Condition.composite "and" cs ∧
      db.Or cs = db.Condition.composite "or" cs :=
  ⟨rfl, rfl⟩

/-- C7: if translating the inner condition c via t reports an error e,
then translating Not(c) via t returns exactly that error with an empty SQL
fragment and no arguments. -/
theorem not_translate_error_path (c : db.Condition) (t : db.ConditionTranslator)
    (e : String) (h : (c.Translate t).err = some e) :
    (db.Not c).Translate t = ⟨"", [], some e⟩ := by
  show (db.Condition.not c).Translate t = _
  rcases hr : c.Translate t with ⟨s, a, er⟩
  rw [hr] at h
  cases er with
  | none => exact Option.noConfusion h
  | some e2 =>
      obtain rfl : e2 = e := Option.some.inj h
      unfold db.Condition.Translate
      rw [hr]

/-- Witness for C7 at a concrete condition and an always-failing
translator. -/
theorem not_translate_error_path_witness :
    (db.Not (db.Eq "a" (db.GoValue.int 1))).Translate
      ⟨fun _ => ⟨"", [], some "boom"⟩, fun _ _ => ⟨"", [], some "boom"⟩⟩
      = ⟨"", [], some "boom"⟩ :=
  not_translate_error_path (db.Eq "a" (db.GoValue.int 1))
    ⟨fun _ => ⟨"", [], some "boom"⟩, fun _ _ => ⟨"", [], some "boom"⟩⟩
    "boom" rfl

/-- C8: the structural type tag is a pure function of the variant: all
nine simple factories yield tag "simple", And and Or yield "composite",
and Not yields "not", with no translator involved. -/
theorem type_tags :
    (∀ f v, (db.Eq f v).TypeTag = "simple") ∧
    (∀ f v, (db.Ne f v).TypeTag = "simple") ∧
    (∀ f v, (db.Gt f v).TypeTag = "simple") ∧
    (∀ f v, (db.Lt f v).TypeTag = "simple") ∧
    (∀ f v, (db.Gte f v).TypeTag = "simple") ∧
    (∀ f v, (db.Lte f v).TypeTag = "simple") ∧
    (∀ f vs, (db.In f vs).TypeTag = "simple") ∧
    (∀ f lo hi, (db.Between f lo hi).TypeTag = "simple") ∧
    (∀ f p, (db.Like f p).TypeTag = "simple") ∧
    (∀ cs, (db.And cs).TypeTag = "composite") ∧
    (∀ cs, (db.Or cs).TypeTag = "composite") ∧
    (∀ c, (db.Not c).TypeTag = "not") :=
  ⟨fun _ _ => rfl, fun _ _ => rfl, fun _ _ => rfl, fun _ _ => rfl,
   fun _ _ => rfl, fun _ _ => rfl, fun _ _ => rfl, fun _ _ _ => rfl,
   fun _ _ => rfl, fun _ => rfl, fun _ => rfl, fun _ => rfl⟩

/-- C10: the default capability set enables all twelve condition-operator
flags and all six clause-feature flags, disables native queries and leaves
the native-query language tag empty. -/
theorem default_capabilities_flags :
    db.DefaultQueryBuilderCapabilities.SupportsEq = true ∧
    db.DefaultQueryBuilderCapabilities.SupportsNe = true ∧
    db.DefaultQueryBuilderCapabilities.SupportsGt = true ∧
    db.DefaultQueryBuilderCapabilities.SupportsLt = true ∧
    db.DefaultQueryBuilderCapabilities.SupportsGte = true ∧
    db.DefaultQueryBuilderCapabilities.SupportsLte = true ∧
    db.DefaultQueryBuilderCapabilities.SupportsIn = true ∧
    db.DefaultQueryBuilderCapabilities.SupportsBetween = true ∧
    db.DefaultQueryBuilderCapabilities.SupportsLike = true ∧
    db.DefaultQueryBuilderCapabilities.SupportsAnd = true ∧
    db.DefaultQueryBuilderCapabilities.SupportsOr = true ∧
    db.DefaultQueryBuilderCapabilities.SupportsNot = true ∧
    db.DefaultQueryBuilderCapabilities.SupportsSelect = true ∧
    db.DefaultQueryBuilderCapabilities.SupportsOrderBy = true ∧
    db.DefaultQueryBuilderCapabilities.SupportsLimit = true ∧
    db.DefaultQueryBuilderCapabilities.SupportsOffset = true ∧
    db.DefaultQueryBuilderCapabilities.SupportsJoin = true ∧
    db.DefaultQueryBuilderCapabilities.SupportsSubquery = true ∧
    db.DefaultQueryBuilderCapabilities.SupportsNativeQuery = false ∧
    db.DefaultQueryBuilderCapabilities.NativeQueryLang = "" := by
  repeat constructor

/-! Helper lemmas about placeholder bookkeeping in the modelled SQL
engine. -/

theorem phIndices_nil : db.phIndices [] = [] := rfl

theorem phIndices_cons_text (s : String) (fr : List db.SqlFrag) :
    db.phIndices (db.SqlFrag.text s :: fr) = db.phIndices fr := rfl

theorem phIndices_cons_ph (i : Nat) (fr : List db.SqlFrag) :
    db.phIndices (db.SqlFrag.ph i :: fr) = i :: db.phIndices fr := rfl

theorem phIndices_singleton_text (s : String) :
    db.phIndices [db.SqlFrag.text s] = [] := rfl

theorem phIndices_append (a b : List db.SqlFrag) :
    db.phIndices (a ++ b) = db.phIndices a ++ db.phIndices b :=
  List.filterMap_append a b _

theorem phStrings_eq_map (d : db.SQLDialect) (fr : List db.SqlFrag) :
    db.phStrings d fr = (db.phIndices fr).map d.GetPlaceholder := by
  induction fr with
  | nil => rfl
  | cons f fr ih =>
    cases f with
    | text s => exact ih
    | ph i => exact congrArg (fun l => d.GetPlaceholder i :: l) ih

theorem phIndices_phSeq (n : Nat) : ∀ start : Nat,
    db.phIndices (db.phSeq start n) = List.range' start n := by
  induction n using Nat.strong_induction_on with
  | _ n ih =>
    intro start
    rcases n with _ | (_ | m)
    · rfl
    · rfl
    · show db.phIndices (db.SqlFrag.ph start :: db.SqlFrag.text ", " ::
          db.phSeq (start + 1) (m + 1)) = _
      rw [phIndices_cons_ph, phIndices_cons_text, ih (m + 1) (by omega) (start + 1)]
      conv_rhs => rw [List.range'_succ]

theorem sizeOf_inner_lt_not (c : db.Condition) :
    sizeOf c < sizeOf (db.Condition.not c) := by
  simp only [db.Condition.not.sizeOf_spec]; omega

theorem sizeOf_head_lt_cons (c : db.Condition) (cs : List db.Condition) :
    sizeOf c < sizeOf (c :: cs) := by
  simp only [List.cons.sizeOf_spec]; omega

theorem sizeOf_tail_lt_cons (c : db.Condition) (cs : List db.Condition) :
    sizeOf cs < sizeOf (c :: cs) := by
  simp only [List.cons.sizeOf_spec]; omega

theorem sizeOf_head_lt_composite (op : String) (c : db.Condition)
    (cs : List db.Condition) :
    sizeOf c < sizeOf (db.Condition.composite op (c :: cs)) := by
  simp only [db.Condition.composite.sizeOf_spec, List.cons.sizeOf_spec]; omega

theorem sizeOf_tail_lt_composite (op : String) (c : db.Condition)
    (cs : List db.Condition) :
    sizeOf cs < sizeOf (db.Condition.composite op (c :: cs)) := by
  simp only [db.Condition.composite.sizeOf_spec, List.cons.sizeOf_spec]; omega

theorem translateSimple_spec (d : db.SQLDialect) (f op : String) (v : db.GoValue)
    (idx : Nat) (fr : List db.SqlFrag) (as : List db.GoValue) (i : Nat)
    (h : db.translateSimple d f op v idx = .ok (fr, as, i)) :
    db.phIndices fr = List.range' idx as.length ∧ i = idx + as.length := by
  unfold db.translateSimple at h
  split at h
  · simp only [Except.ok.injEq, Prod.mk.injEq] at h
    obtain ⟨h1, h2, h3⟩ := h
    subst h1; subst h2; subst h3
    exact ⟨rfl, rfl⟩
  · split at h
    · simp only [Except.ok.injEq, Prod.mk.injEq] at h
      obtain ⟨h1, h2, h3⟩ := h
      subst h1; subst h2; subst h3
      exact ⟨rfl, rfl⟩
    · split at h
      · split at h
        · split at h
          · exact absurd h (by simp)
          · simp only [Except.ok.injEq, Prod.mk.injEq] at h
            obtain ⟨h1, h2, h3⟩ := h
            subst h1; subst h2; subst h3
            refine ⟨?_, rfl⟩
            simp [phIndices_append, phIndices_phSeq, phIndices_cons_text,
              phIndices_nil]
        · exact absurd h (by simp)
      · split at h
        · split at h
          · simp only [Except.ok.injEq, Prod.mk.injEq] at h
            obtain ⟨h1, h2, h3⟩ := h
            subst h1; subst h2; subst h3
            exact ⟨rfl, rfl⟩
          · exact absurd h (by simp)
        · exact absurd h (by simp)

theorem translate_spec_aux (d : db.SQLDialect) (N : Nat) :
    (∀ c : db.Condition, sizeOf c ≤ N → ∀ idx fr as i,
        db.translateCond d c idx = .ok (fr, as, i) →
        db.phIndices fr = List.range' idx as.length ∧ i = idx + as.length) ∧
    (∀ (kw : String) (cs : List db.Condition), sizeOf cs ≤ N → ∀ idx fr as i,
        db.translateCondList d kw cs idx = .ok (fr, as, i) →
        db.phIndices fr = List.range' idx as.length ∧ i = idx + as.length) := by
  induction N using Nat.strong_induction_on with
  | _ N ih =>
    constructor
    · intro c hc idx fr as i h
      cases c with
      | simple f op v => exact translateSimple_spec d f op v idx fr as i h
      | not c1 =>
          unfold db.translateCond at h
          rcases hr : db.translateCond d c1 idx with e | ⟨fr1, as1, i1⟩
          · rw [hr] at h; exact absurd h (by simp)
          · rw [hr] at h
            simp only [Except.ok.injEq, Prod.mk.injEq] at h
            obtain ⟨h1, h2, h3⟩ := h
            subst h1; subst h2; subst h3
            have hlt : sizeOf c1 < N :=
              Nat.lt_of_lt_of_le (sizeOf_inner_lt_not c1) hc
            obtain ⟨hp, hi⟩ := (ih (sizeOf c1) hlt).1 c1 (Nat.le_refl _) idx fr1 as1 i1 hr
            refine ⟨?_, hi⟩
            rw [phIndices_cons_text, phIndices_append, hp]
            simp [phIndices_cons_text, phIndices_nil]
      | composite op cs =>
          unfold db.translateCond at h
          split at h
          · exact absurd h (by simp)
          · rename_i kw hkw
            split at h
            · exact absurd h (by simp)
            · rename_i c1 rest
              split at h
              · exact absurd h (by simp)
              · rename_i fr1 as1 i1 hr1
                split at h
                · exact absurd h (by simp)
                · rename_i frs as2 i2 hr2
                  simp only [Except.ok.injEq, Prod.mk.injEq] at h
                  obtain ⟨h1, h2, h3⟩ := h
                  subst h1; subst h2; subst h3
                  have hlt1 : sizeOf c1 < N :=
                    Nat.lt_of_lt_of_le (sizeOf_head_lt_composite op c1 rest) hc
                  have hlt2 : sizeOf rest < N :=
                    Nat.lt_of_lt_of_le (sizeOf_tail_lt_composite op c1 rest) hc
                  obtain ⟨hp1, hi1⟩ :=
                    (ih (sizeOf c1) hlt1).1 c1 (Nat.le_refl _) idx fr1 as1 i1 hr1
                  obtain ⟨hp2, hi2⟩ :=
                    (ih (sizeOf rest) hlt2).2 kw rest (Nat.le_refl _) i1 frs as2 i2 hr2
                  subst hi1
                  constructor
                  · rw [phIndices_cons_text]
                    simp [phIndices_append, hp1, hp2, phIndices_cons_text,
                      phIndices_nil, List.length_append, List.range'_append_1]
                    omega
                  · simp only [List.length_append]
                    omega
    · intro kw cs hc idx fr as i h
      cases cs with
      | nil =>
          unfold db.translateCondList at h
          simp only [Except.ok.injEq, Prod.mk.injEq] at h
          obtain ⟨h1, h2, h3⟩ := h
          subst h1; subst h2; subst h3
          exact ⟨rfl, by simp⟩
      | cons c1 rest =>
          unfold db.translateCondList at h
          split at h
          · exact absurd h (by simp)
          · rename_i fr1 as1 i1 hr1
            split at h
            · exact absurd h (by simp)
            · rename_i frs as2 i2 hr2
              simp only [Except.ok.injEq, Prod.mk.injEq] at h
              obtain ⟨h1, h2, h3⟩ := h
              subst h1; subst h2; subst h3
              have hlt1 : sizeOf c1 < N :=
                Nat.lt_of_lt_of_le (sizeOf_head_lt_cons c1 rest) hc
              have hlt2 : sizeOf rest < N :=
                Nat.lt_of_lt_of_le (sizeOf_tail_lt_cons c1 rest) hc
              obtain ⟨hp1, hi1⟩ :=
                (ih (sizeOf c1) hlt1).1 c1 (Nat.le_refl _) idx fr1 as1 i1 hr1
              obtain ⟨hp2, hi2⟩ :=
                (ih (sizeOf rest) hlt2).2 kw rest (Nat.le_refl _) i1 frs as2 i2 hr2
              subst hi1
              constructor
              · rw [phIndices_cons_text]
                simp [phIndices_append, hp1, hp2, List.length_append,
                  List.range'_append_1]
                omega
              · simp only [List.length_append]
                omega

theorem translateCond_spec (d : db.SQLDialect) (c : db.Condition) (idx : Nat)
    (fr : List db.SqlFrag) (as : List db.GoValue) (i : Nat)
    (h : db.translateCond d c idx = .ok (fr, as, i)) :
    db.phIndices fr = List.range' idx as.length ∧ i = idx + as.length :=
  (translate_spec_aux d (sizeOf c)).1 c (Nat.le_refl _) idx fr as i h

theorem translateCondList_spec (d : db.SQLDialect) (kw : String)
    (cs : List db.Condition) (idx : Nat) (fr : List db.SqlFrag)
    (as : List db.GoValue) (i : Nat)
    (h : db.translateCondList d kw cs idx = .ok (fr, as, i)) :
    db.phIndices fr = List.range' idx as.length ∧ i = idx + as.length :=
  (translate_spec_aux d (sizeOf cs)).2 kw cs (Nat.le_refl _) idx fr as i h

theorem buildWhere_spec (d : db.SQLDialect) (cs : List db.Condition) (idx : Nat)
    (fr : List db.SqlFrag) (as : List db.GoValue) (i : Nat)
    (h : db.buildWhere d cs idx = .ok (fr, as, i)) :
    db.phIndices fr = List.range' idx as.length ∧ i = idx + as.length := by
  cases cs with
  | nil =>
      unfold db.buildWhere at h
      simp only [Except.ok.injEq, Prod.mk.injEq] at h
      obtain ⟨h1, h2, h3⟩ := h
      subst h1; subst h2; subst h3
      exact ⟨rfl, by simp⟩
  | cons c1 rest =>
      simp only [db.buildWhere] at h
      split at h
      · exact absurd h (by simp)
      · rename_i fr1 as1 i1 hr1
        split at h
        · exact absurd h (by simp)
        · rename_i frs as2 i2 hr2
          simp only [Except.ok.injEq, Prod.mk.injEq] at h
          obtain ⟨h1, h2, h3⟩ := h
          subst h1; subst h2; subst h3
          obtain ⟨hp1, hi1⟩ := translateCond_spec d c1 idx fr1 as1 i1 hr1
          obtain ⟨hp2, hi2⟩ := translateCondList_spec d " AND " rest i1 frs as2 i2 hr2
          subst hi1
          constructor
          · simp [phIndices_append, hp1, hp2, List.length_append,
              List.range'_append_1]
            omega
          · simp only [List.length_append]
            omega

/-- C9: for every query whose Build succeeds with k arguments, the
placeholder indices embedded in the rendered fragments are exactly 1..k in
strictly increasing order, the i-th placeholder matching position i of the
argument list; under the numbered-placeholder PostgreSQL dialect the
rendered placeholder tokens are exactly the dollar-number tokens for 1..k
in order, and under the positional MySQL and SQLite dialects they are
exactly k question-mark tokens, regardless of composite nesting depth. -/
theorem build_placeholder_numbering (qc : db.SQLQueryConstructor)
    (fr : List db.SqlFrag) (args : List db.GoValue)
    (h : db.Build qc = .ok (fr, args)) :
    db.phIndices fr = List.range' 1 args.length ∧
    List.Pairwise (fun a b => a < b) (db.phIndices fr) ∧
    (qc.dialect = db.NewPostgreSQLDialect →
      db.phStrings qc.dialect fr
        = (List.range' 1 args.length).map (fun i => "$" ++ toString i)) ∧
    ((qc.dialect = db.NewMySQLDialect ∨ qc.dialect = db.NewSQLiteDialect) →
      db.phStrings qc.dialect fr = List.replicate args.length "?") := by
  have hphi : db.phIndices fr = List.range' 1 args.length := by
    unfold db.Build at h
    split at h
    · exact absurd h (by simp)
    · split at h
      · exact absurd h (by simp)
      · split at h
        · exact absurd h (by simp)
        · rename_i wfr args0 iend hw
          simp only [Except.ok.injEq, Prod.mk.injEq] at h
          obtain ⟨h1, h2⟩ := h
          subst h1; subst h2
          obtain ⟨hp, _⟩ :=
            buildWhere_spec qc.dialect qc.conditions 1 wfr args0 iend hw
          rw [phIndices_cons_text, phIndices_append]
          by_cases hempty : qc.conditions.isEmpty
          · have hnil : qc.conditions = [] := by
              simpa [List.isEmpty_iff] using hempty
            rw [hnil] at hw
            unfold db.buildWhere at hw
            simp only [Except.ok.injEq, Prod.mk.injEq] at hw
            obtain ⟨hw1, hw2, hw3⟩ := hw
            subst hw1; subst hw2
            simp [hempty, phIndices_nil, phIndices_singleton_text]
          · simp only [hempty, if_neg, Bool.false_eq_true, not_false_iff,
              ite_false]
            rw [phIndices_cons_text, hp]
            simp [phIndices_singleton_text]
  refine ⟨hphi, ?_, ?_, ?_⟩
  · rw [hphi]
    exact List.pairwise_lt_range' 1 args.length
  · intro hd
    rw [phStrings_eq_map, hphi, hd]
    rfl
  · intro hd
    rcases hd with hd | hd <;> rw [phStrings_eq_map, hphi, hd] <;>
      simp [db.NewMySQLDialect, db.NewSQLiteDialect, List.map_const',
        List.length_range']

/-- Witness for C9 at a concrete two-parameter query under the
numbered-placeholder dialect. -/
theorem build_placeholder_numbering_witness :
    db.phIndices db.buildWitnessFrags = List.range' 1 db.buildWitnessArgs.length ∧
    List.Pairwise (fun a b => a < b) (db.phIndices db.buildWitnessFrags) ∧
    (db.buildWitnessQC.dialect = db.NewPostgreSQLDialect →
      db.phStrings db.buildWitnessQC.dialect db.buildWitnessFrags
        = (List.range' 1 db.buildWitnessArgs.length).map (fun i => "$" ++ toString i)) ∧
    ((db.buildWitnessQC.dialect = db.NewMySQLDialect ∨
        db.buildWitnessQC.dialect = db.NewSQLiteDialect) →
      db.phStrings db.buildWitnessQC.dialect db.buildWitnessFrags
        = List.replicate db.buildWitnessArgs.length "?") :=
  build_placeholder_numbering db.buildWitnessQC db.buildWitnessFrags
    db.buildWitnessArgs rfl
